import Mathlib

/-! Verification of the Pantry Plan backend (`src/backend/main.py`).

The Python module is a small FastAPI service persisting a list of pantry
items in a JSON file.  We embed its data model and code paths shallowly:

* a persisted record (one JSON object of the stored array) is a `RawRow`;
  each field records presence (`some`) or absence (`none`) of the
  corresponding dict key — these six keys are the only ones the program
  reads or writes;
* Python strings are Lean `String`s; `str.strip`, `str.lower` and string
  comparison (as used by `sorted`) are modelled at the code-point level,
  which coincides with CPython on the ASCII data this program handles;
* the endpoint bodies `post_pantry` and `put_pantry` become pure functions
  from the stored collection to the new stored collection plus the
  response; Python exceptions (`KeyError`, `json.JSONDecodeError`,
  pydantic validation errors, `HTTPException(404)`) are modelled with
  `Except PyErr`.
-/

/-- Drop leading and trailing whitespace from a character list, the effect
of Python `str.strip()`. -/
def stripChars (l : List Char) : List Char :=
  ((l.dropWhile Char.isWhitespace).reverse.dropWhile Char.isWhitespace).reverse

/-- Python `str.strip()`. -/
def pyStrip (s : String) : String := ⟨stripChars s.data⟩

/-- Python `str.lower()` (code-point case folding; ASCII-faithful). -/
def pyLower (s : String) : String := ⟨s.data.map Char.toLower⟩

/-- The key `name.strip().lower()` used by `_find_by_name` for
case-insensitive, whitespace-trimmed name comparison. -/
def normName (s : String) : String := pyLower (pyStrip s)

/-- Lexicographic comparison of character lists by code point, the order
Python uses to compare `str` values. -/
def leChars : List Char → List Char → Bool
  | [], _ => true
  | _ :: _, [] => false
  | a :: as, b :: bs => if a < b then true else if b < a then false else leChars as bs

/-- Python string comparison `a <= b`. -/
def pyLe (a b : String) : Bool := leChars a.data b.data

/-- The relation `pyLe` as a proposition, for use with Mathlib's sorting library. -/
def pyLeProp (a b : String) : Prop := pyLe a b = true

instance : DecidableRel pyLeProp := fun _ _ => inferInstanceAs (Decidable (_ = true))

/-- Python `sorted` on a list of strings: ascending lexical (code-point)
order.  Ties are equal strings, so any correct sort computes the same list
as CPython's stable sort. -/
def pySorted (l : List String) : List String := List.insertionSort pyLeProp l

/-- One record of `pantry_db.json`, as a loosely-typed dict.  `none` means
the key is absent. -/
structure RawRow where
  id : Option Int := none
  name : Option String := none
  quantity : Option Int := none
  unit : Option String := none
  expiry_date : Option String := none
  expiry_dates : Option (List String) := none
deriving DecidableEq

/-- Model of `_normalize_row`: ensure the row has an `expiry_dates` list, migrating a
legacy `expiry_date` value into a one-element list when needed.  All other
keys are carried over unchanged (`{**row, ...}` copies the dict). -/
def normalizeRow (row : RawRow) : RawRow :=
  let row1 :=
    match row.expiry_dates, row.expiry_date with
    | none, some d => { row with expiry_dates := some [d] }
    | _, _ => row
  match row1.expiry_dates with
  | none => { row1 with expiry_dates := some [] }
  | some _ => row1

/-- The pydantic response model `PantryItem`. -/
structure PantryItem where
  id : Int
  name : String
  quantity : Int
  unit : String
  expiry_dates : List String
deriving DecidableEq

/-- The pydantic request model `PantryItemCreate` (already validated). -/
structure PantryItemCreate where
  name : String
  quantity : Int
  unit : String
  expiry_date : String
deriving DecidableEq

/-- The pydantic request model `PantryItemUpdate`; every field optional. -/
structure PantryItemUpdate where
  name : Option String := none
  quantity : Option Int := none
  unit : Option String := none
  expiry_dates : Option (List String) := none
deriving DecidableEq

/-- Python exceptions that can escape the embedded code paths. -/
inductive PyErr where
  /-- `KeyError`, raised by `item["id"]` in `_next_id` on a row without id. -/
  | keyError
  /-- `json.JSONDecodeError`, raised by `json.load` on unparseable content. -/
  | jsonDecodeError
  /-- A pydantic `ValidationError` (constructing a model from bad data). -/
  | validationError
  /-- `HTTPException(status_code=404)`. -/
  | notFound
deriving DecidableEq

/-- Model of `PantryItem(**row)`: pydantic validation of a raw row against the
response model.  `id`, `name`, `quantity`, `unit` are required;
`expiry_dates` defaults to `[]`; extra keys (the legacy `expiry_date`) are
ignored, pydantic's default for unknown fields. -/
def pantryItemOfRow (r : RawRow) : Option PantryItem :=
  match r.id, r.name, r.quantity, r.unit with
  | some i, some n, some q, some u =>
      some { id := i, name := n, quantity := q, unit := u,
             expiry_dates := r.expiry_dates.getD [] }
  | _, _, _, _ => none

/-- The endpoint's `return PantryItem(**row)` as an `Except`. -/
def pantryResponse (r : RawRow) : Except PyErr PantryItem :=
  match pantryItemOfRow r with
  | some it => Except.ok it
  | none => Except.error PyErr.validationError

/-- Model of `item.model_dump()`: the dict a `PantryItem` serializes to. -/
def rowOfItem (it : PantryItem) : RawRow :=
  { id := some it.id, name := some it.name, quantity := some it.quantity,
    unit := some it.unit, expiry_date := none,
    expiry_dates := some it.expiry_dates }

/-- State of the backing file `pantry_db.json` as `_load_db` can observe
it. -/
inductive Storage where
  /-- The file does not exist. -/
  | missing
  /-- The file exists but `json.load` cannot parse its content. -/
  | unparseable
  /-- The file holds a JSON array of objects. -/
  | parsedList (rows : List RawRow)
  /-- The file holds valid JSON that is not an array. -/
  | parsedOther
deriving DecidableEq

/-- Model of `_load_db`: missing file yields `[]`; parse failure propagates as an
exception; a parsed non-list yields `[]`; a parsed list is returned. -/
def loadDb : Storage → Except PyErr (List RawRow)
  | Storage.missing => Except.ok []
  | Storage.unparseable => Except.error PyErr.jsonDecodeError
  | Storage.parsedList rows => Except.ok rows
  | Storage.parsedOther => Except.ok []

/-- The key `r.get("name", "").strip().lower()`, the per-row side of
`_find_by_name`'s comparison. -/
def rowKey (r : RawRow) : String := normName (r.name.getD "")

/-- The in-place mutation `post_pantry` performs on the matched row:
`quantity` grows by `item.quantity` (missing quantity read as 0), the new
expiry date is appended when absent, and the list is re-sorted. -/
def mergeRow (item : PantryItemCreate) (r : RawRow) : RawRow :=
  let q := r.quantity.getD 0 + item.quantity
  let dates := r.expiry_dates.getD []
  let dates := if item.expiry_date ∈ dates then dates else dates ++ [item.expiry_date]
  { r with quantity := some q, expiry_dates := some (pySorted dates) }

/-- Model of `_find_by_name` followed by the merge mutation: scan for the first row
whose `rowKey` equals the normalized input name; on a hit return the list
with that row replaced by its merged version, together with the merged row
(Python mutates the row through the alias `existing`). -/
def mergeLoop (item : PantryItemCreate) : List RawRow → Option (List RawRow × RawRow)
  | [] => none
  | r :: rest =>
    if rowKey r == normName item.name then
      let r' := mergeRow item r
      some (r' :: rest, r')
    else
      match mergeLoop item rest with
      | some (rest', row') => some (r :: rest', row')
      | none => none

/-- The fold inside `_next_id`'s `max(item["id"] for item in items)`; a row
without an `id` key raises `KeyError`. -/
def maxIdAux : Int → List RawRow → Except PyErr Int
  | m, [] => Except.ok m
  | m, r :: rest =>
    match r.id with
    | some i => maxIdAux (max m i) rest
    | none => Except.error PyErr.keyError

/-- Model of `_next_id`: 1 on an empty collection, otherwise the maximum id plus
one. -/
def nextId : List RawRow → Except PyErr Int
  | [] => Except.ok 1
  | r :: rest =>
    match r.id with
    | some i => (maxIdAux i rest).map (· + 1)
    | none => Except.error PyErr.keyError

/-- Model of `post_pantry`: load (here: take the stored list), normalize every row,
merge into the first row with a matching name, else append a fresh item.
Returns the new stored list and the HTTP response.  On the create path a
`KeyError` from `_next_id` aborts before the save, leaving storage as it
was; on the merge path the save happens before the response model is
built. -/
def postPantry (item : PantryItemCreate) (db : List RawRow) :
    List RawRow × Except PyErr PantryItem :=
  let items := db.map normalizeRow
  match mergeLoop item items with
  | some (items', merged) => (items', pantryResponse merged)
  | none =>
    match nextId items with
    | Except.error e => (db, Except.error e)
    | Except.ok newId =>
      let newItem : PantryItem :=
        { id := newId, name := pyStrip item.name, quantity := item.quantity,
          unit := item.unit, expiry_dates := [item.expiry_date] }
      (items ++ [rowOfItem newItem], Except.ok newItem)

/-- The field-patch `put_pantry` applies to the matched row: each provided
field overwrites the stored one (`name` is stripped, `expiry_dates` is
sorted as given, duplicates and all); omitted fields stay. -/
def applyUpdate (body : PantryItemUpdate) (r : RawRow) : RawRow :=
  let r1 := match body.name with
    | some n => { r with name := some (pyStrip n) }
    | none => r
  let r2 := match body.quantity with
    | some q => { r1 with quantity := some q }
    | none => r1
  let r3 := match body.unit with
    | some u => { r2 with unit := some u }
    | none => r2
  match body.expiry_dates with
  | some ds => { r3 with expiry_dates := some (pySorted ds) }
  | none => r3

/-- The `for i, row in enumerate(items)` scan of `put_pantry`: patch the
first row whose `id` equals the path id, returning the updated list and
updated row; `none` when no row matches. -/
def putLoop (itemId : Int) (body : PantryItemUpdate) :
    List RawRow → Option (List RawRow × RawRow)
  | [] => none
  | r :: rest =>
    if r.id == some itemId then
      let r' := applyUpdate body r
      some (r' :: rest, r')
    else
      match putLoop itemId body rest with
      | some (rest', row') => some (r :: rest', row')
      | none => none

/-- Model of `put_pantry`: normalize every loaded row, patch the row with the given
id and save, or answer 404 without saving. -/
def putPantry (itemId : Int) (body : PantryItemUpdate) (db : List RawRow) :
    List RawRow × Except PyErr PantryItem :=
  let items := db.map normalizeRow
  match putLoop itemId body items with
  | some (items', row') => (items', pantryResponse row')
  | none => (db, Except.error PyErr.notFound)

/-- A JSON value of a request body, before pydantic validation. -/
inductive JVal where
  | s : String → JVal
  | i : Int → JVal
  | arr : List JVal → JVal
  | null

/-- A creation request body as received, each field possibly absent or of
the wrong type. -/
structure CreateBody where
  name : Option JVal := none
  quantity : Option JVal := none
  unit : Option JVal := none
  expiry_date : Option JVal := none

/-- Pydantic validation of `PantryItemCreate`: all four fields are
required, `name`/`unit`/`expiry_date` must be strings and `quantity` an
integer.  No further constraint exists — in particular no minimum length on
`name` and no date-format check on `expiry_date`.  (Pydantic's lax-mode
numeric coercions are not modelled; no claim depends on them.) -/
def validateCreate (b : CreateBody) : Except PyErr PantryItemCreate :=
  match b.name, b.quantity, b.unit, b.expiry_date with
  | some (JVal.s n), some (JVal.i q), some (JVal.s u), some (JVal.s d) =>
      Except.ok { name := n, quantity := q, unit := u, expiry_date := d }
  | _, _, _, _ => Except.error PyErr.validationError

/-- No two rows with distinct ids share a trimmed, case-insensitive name. -/
def NameUnique (db : List RawRow) : Prop :=
  ∀ r ∈ db, ∀ s ∈ db, r.id ≠ s.id → rowKey r ≠ rowKey s

instance (db : List RawRow) : Decidable (NameUnique db) :=
  decidable_of_iff (∀ r ∈ db, ∀ s ∈ db, r.id ≠ s.id → rowKey r ≠ rowKey s) Iff.rfl

/-- Stored collections reachable from the empty collection by any sequence
of create-or-merge and update-by-id operations. -/
inductive Reachable : List RawRow → Prop where
  | empty : Reachable []
  | post (item : PantryItemCreate) {db : List RawRow} :
      Reachable db → Reachable (postPantry item db).1
  | put (itemId : Int) (body : PantryItemUpdate) {db : List RawRow} :
      Reachable db → Reachable (putPantry itemId body db).1

/-- Stored collections reachable from the empty collection by
create-or-merge operations alone. -/
inductive PostReachable : List RawRow → Prop where
  | empty : PostReachable []
  | post (item : PantryItemCreate) {db : List RawRow} :
      PostReachable db → PostReachable (postPantry item db).1

/-- A sequence of create-or-merge operations, run left to right. -/
def postMany (reqs : List PantryItemCreate) (db : List RawRow) : List RawRow :=
  reqs.foldl (fun db req => (postPantry req db).1) db

/-! ### The string order: totality, transitivity, sorting facts -/

theorem leChars_total (a b : List Char) : leChars a b = true ∨ leChars b a = true := by
  induction a generalizing b with
  | nil => left; rfl
  | cons x xs ih =>
    cases b with
    | nil => right; rfl
    | cons y ys =>
      rcases lt_trichotomy x y with h | h | h
      · left; simp [leChars, h, asymm h]
      · subst h; simp [leChars, lt_irrefl]; exact ih ys
      · right; simp [leChars, h, asymm h]

theorem leChars_trans (a b c : List Char) (hab : leChars a b = true)
    (hbc : leChars b c = true) : leChars a c = true := by
  induction a generalizing b c with
  | nil => rfl
  | cons x xs ih =>
    cases b with
    | nil => simp [leChars] at hab
    | cons y ys =>
      cases c with
      | nil => simp [leChars] at hbc
      | cons z zs =>
        simp only [leChars] at hab hbc ⊢
        rcases lt_trichotomy x y with h1 | h1 | h1
        · rcases lt_trichotomy y z with h2 | h2 | h2
          · rw [if_pos (lt_trans h1 h2)]
          · subst h2; rw [if_pos h1]
          · rw [if_neg (asymm h2), if_pos h2] at hbc; simp at hbc
        · subst h1
          rw [if_neg (lt_irrefl x), if_neg (lt_irrefl x)] at hab
          rcases lt_trichotomy x z with h2 | h2 | h2
          · rw [if_pos h2]
          · subst h2
            rw [if_neg (lt_irrefl x), if_neg (lt_irrefl x)] at hbc
            rw [if_neg (lt_irrefl x), if_neg (lt_irrefl x)]
            exact ih ys zs hab hbc
          · rw [if_neg (asymm h2), if_pos h2] at hbc; simp at hbc
        · rw [if_neg (asymm h1), if_pos h1] at hab; simp at hab

instance : IsTotal String pyLeProp := ⟨fun a b => leChars_total a.data b.data⟩

instance : IsTrans String pyLeProp := ⟨fun a b c => leChars_trans a.data b.data c.data⟩

theorem sorted_pySorted (l : List String) : List.Sorted pyLeProp (pySorted l) :=
  List.sorted_insertionSort _ l

theorem perm_pySorted (l : List String) : List.Perm (pySorted l) l :=
  List.perm_insertionSort _ l

theorem count_pySorted (l : List String) (a : String) :
    (pySorted l).count a = l.count a :=
  (perm_pySorted l).count_eq a

theorem mem_pySorted (l : List String) (a : String) : a ∈ pySorted l ↔ a ∈ l :=
  (perm_pySorted l).mem_iff

/-! ### Idempotence of stripping -/

theorem dropWhile_self {α : Type} (p : α → Bool) (l : List α) :
    (l.dropWhile p).dropWhile p = l.dropWhile p := by
  induction l with
  | nil => rfl
  | cons a l ih =>
    cases h : p a
    · simp [List.dropWhile_cons, h]
    · simp [List.dropWhile_cons, h, ih]

theorem dropWhile_head_false {α : Type} (p : α → Bool) (l : List α) (a : α)
    (t : List α) (h : l.dropWhile p = a :: t) : p a = false := by
  induction l with
  | nil => simp at h
  | cons b l ih =>
    rw [List.dropWhile_cons] at h
    cases hb : p b
    · rw [hb] at h
      simp at h
      exact h.1 ▸ hb
    · rw [hb] at h
      simp at h
      exact ih h

theorem stripChars_dropWhile (m : List Char) :
    (stripChars m).dropWhile Char.isWhitespace = stripChars m := by
  cases hrr : stripChars m with
  | nil => rfl
  | cons a t =>
    have hrr' : ((m.dropWhile Char.isWhitespace).reverse.dropWhile
        Char.isWhitespace).reverse = a :: t := hrr
    have hdecomp : m.dropWhile Char.isWhitespace =
        a :: (t ++ ((m.dropWhile Char.isWhitespace).reverse.takeWhile
          Char.isWhitespace).reverse) :=
      calc m.dropWhile Char.isWhitespace
          = ((m.dropWhile Char.isWhitespace).reverse).reverse :=
            (List.reverse_reverse _).symm
        _ = (((m.dropWhile Char.isWhitespace).reverse.takeWhile Char.isWhitespace) ++
              ((m.dropWhile Char.isWhitespace).reverse.dropWhile
                Char.isWhitespace)).reverse := by
            rw [List.takeWhile_append_dropWhile]
        _ = ((m.dropWhile Char.isWhitespace).reverse.dropWhile Char.isWhitespace).reverse ++
              ((m.dropWhile Char.isWhitespace).reverse.takeWhile Char.isWhitespace).reverse := by
            rw [List.reverse_append]
        _ = (a :: t) ++ ((m.dropWhile Char.isWhitespace).reverse.takeWhile
              Char.isWhitespace).reverse := by
            rw [hrr']
        _ = a :: (t ++ ((m.dropWhile Char.isWhitespace).reverse.takeWhile
              Char.isWhitespace).reverse) := by
            rw [List.cons_append]
    have ha : Char.isWhitespace a = false :=
      dropWhile_head_false Char.isWhitespace m a _ hdecomp
    simp [List.dropWhile_cons, ha]

theorem stripChars_idem (l : List Char) : stripChars (stripChars l) = stripChars l := by
  show (((stripChars l).dropWhile Char.isWhitespace).reverse.dropWhile
      Char.isWhitespace).reverse = stripChars l
  rw [stripChars_dropWhile]
  show (((((l.dropWhile Char.isWhitespace).reverse.dropWhile
      Char.isWhitespace).reverse).reverse).dropWhile Char.isWhitespace).reverse =
    stripChars l
  rw [List.reverse_reverse, dropWhile_self]
  rfl

theorem pyStrip_idem (s : String) : pyStrip (pyStrip s) = pyStrip s := by
  unfold pyStrip
  rw [stripChars_idem]

theorem normName_pyStrip (s : String) : normName (pyStrip s) = normName s := by
  unfold normName
  rw [pyStrip_idem]

/-! ### Facts about normalization -/

theorem normalizeRow_frame (r : RawRow) :
    (normalizeRow r).id = r.id ∧ (normalizeRow r).name = r.name ∧
    (normalizeRow r).quantity = r.quantity ∧ (normalizeRow r).unit = r.unit ∧
    (normalizeRow r).expiry_date = r.expiry_date := by
  cases h1 : r.expiry_dates <;> cases h2 : r.expiry_date <;>
    simp [normalizeRow, h1, h2]

theorem normalizeRow_id (r : RawRow) : (normalizeRow r).id = r.id :=
  (normalizeRow_frame r).1

theorem normalizeRow_name (r : RawRow) : (normalizeRow r).name = r.name :=
  (normalizeRow_frame r).2.1

theorem normalizeRow_expiry_dates (r : RawRow) :
    (normalizeRow r).expiry_dates =
      some (r.expiry_dates.getD
        (match r.expiry_date with | some d => [d] | none => [])) := by
  cases h1 : r.expiry_dates <;> cases h2 : r.expiry_date <;>
    simp [normalizeRow, h1, h2]

theorem normalizeRow_rowKey (r : RawRow) : rowKey (normalizeRow r) = rowKey r := by
  unfold rowKey
  rw [normalizeRow_name]

theorem map_normalizeRow_fixed {db : List RawRow}
    (h : ∀ r ∈ db, normalizeRow r = r) : db.map normalizeRow = db := by
  induction db with
  | nil => rfl
  | cons a l ih =>
    rw [List.map_cons, h a (List.mem_cons_self a l),
      ih fun r hr => h r (List.mem_cons_of_mem a hr)]

/-! ### The merge scan -/

theorem mergeLoop_eq_none (item : PantryItemCreate) (l : List RawRow)
    (h : ∀ r ∈ l, rowKey r ≠ normName item.name) : mergeLoop item l = none := by
  induction l with
  | nil => rfl
  | cons r rest ih =>
    have hr : rowKey r ≠ normName item.name := h r (List.mem_cons_self r rest)
    simp only [mergeLoop]
    rw [if_neg (by simp [hr]), ih fun s hs => h s (List.mem_cons_of_mem r hs)]

theorem mergeLoop_first (item : PantryItemCreate) (pre : List RawRow) (r : RawRow)
    (post : List RawRow) (hpre : ∀ s ∈ pre, rowKey s ≠ normName item.name)
    (hr : rowKey r = normName item.name) :
    mergeLoop item (pre ++ r :: post) =
      some (pre ++ mergeRow item r :: post, mergeRow item r) := by
  induction pre with
  | nil =>
    simp only [List.nil_append, mergeLoop]
    rw [if_pos (by simp [hr])]
  | cons s pre ih =>
    have hs : rowKey s ≠ normName item.name := hpre s (List.mem_cons_self s pre)
    simp only [List.cons_append, mergeLoop, List.append_eq]
    rw [if_neg (by simp [hs]), ih fun u hu => hpre u (List.mem_cons_of_mem s hu)]

/-! ### The update scan -/

theorem putLoop_eq_none (itemId : Int) (body : PantryItemUpdate) (l : List RawRow)
    (h : ∀ r ∈ l, r.id ≠ some itemId) : putLoop itemId body l = none := by
  induction l with
  | nil => rfl
  | cons r rest ih =>
    have hr : r.id ≠ some itemId := h r (List.mem_cons_self r rest)
    simp only [putLoop]
    rw [if_neg (by simp [hr]), ih fun s hs => h s (List.mem_cons_of_mem r hs)]

theorem putLoop_first (itemId : Int) (body : PantryItemUpdate) (pre : List RawRow)
    (r : RawRow) (post : List RawRow) (hpre : ∀ s ∈ pre, s.id ≠ some itemId)
    (hr : r.id = some itemId) :
    putLoop itemId body (pre ++ r :: post) =
      some (pre ++ applyUpdate body r :: post, applyUpdate body r) := by
  induction pre with
  | nil =>
    simp only [List.nil_append, putLoop]
    rw [if_pos (by simp [hr])]
  | cons s pre ih =>
    have hs : s.id ≠ some itemId := hpre s (List.mem_cons_self s pre)
    simp only [List.cons_append, putLoop, List.append_eq]
    rw [if_neg (by simp [hs]), ih fun u hu => hpre u (List.mem_cons_of_mem s hu)]

theorem applyUpdate_id (body : PantryItemUpdate) (r : RawRow) :
    (applyUpdate body r).id = r.id := by
  cases hn : body.name <;> cases hq : body.quantity <;> cases hu : body.unit <;>
    cases hd : body.expiry_dates <;> simp [applyUpdate, hn, hq, hu, hd]

theorem applyUpdate_expiry_date (body : PantryItemUpdate) (r : RawRow) :
    (applyUpdate body r).expiry_date = r.expiry_date := by
  cases hn : body.name <;> cases hq : body.quantity <;> cases hu : body.unit <;>
    cases hd : body.expiry_dates <;> simp [applyUpdate, hn, hq, hu, hd]

theorem putLoop_expiry_date_map (itemId : Int) (body : PantryItemUpdate)
    (l : List RawRow) : ∀ l' row', putLoop itemId body l = some (l', row') →
    l'.map RawRow.expiry_date = l.map RawRow.expiry_date := by
  induction l with
  | nil => intro l' row' h; simp [putLoop] at h
  | cons r rest ih =>
    intro l' row' h
    simp only [putLoop] at h
    by_cases hc : (r.id == some itemId) = true
    · rw [if_pos hc] at h
      have h' := Option.some.inj h
      rw [Prod.mk.injEq] at h'
      obtain ⟨h1, h2⟩ := h'
      subst h1
      simp [List.map_cons, applyUpdate_expiry_date]
    · rw [if_neg hc] at h
      cases hrec : putLoop itemId body rest with
      | none => rw [hrec] at h; simp at h
      | some p =>
        obtain ⟨rest', row''⟩ := p
        rw [hrec] at h
        simp only at h
        have h' := Option.some.inj h
        rw [Prod.mk.injEq] at h'
        obtain ⟨h1, h2⟩ := h'
        subst h1
        simp [List.map_cons, ih rest' row'' hrec]

/-! ### Fresh id computation -/

theorem maxIdAux_ok (acc : Int) (l : List RawRow)
    (h : ∀ r ∈ l, (r.id).isSome = true) :
    ∃ m, maxIdAux acc l = Except.ok m ∧ acc ≤ m ∧
      (∀ r ∈ l, ∀ i, r.id = some i → i ≤ m) ∧
      (m = acc ∨ ∃ r ∈ l, r.id = some m) := by
  induction l generalizing acc with
  | nil => exact ⟨acc, rfl, le_refl _, by simp, Or.inl rfl⟩
  | cons r rest ih =>
    obtain ⟨i, hi⟩ := Option.isSome_iff_exists.mp (h r (List.mem_cons_self r rest))
    obtain ⟨m, hm, hle, hbound, hattain⟩ :=
      ih (max acc i) fun s hs => h s (List.mem_cons_of_mem r hs)
    refine ⟨m, ?_, le_trans (le_max_left acc i) hle, ?_, ?_⟩
    · simp [maxIdAux, hi, hm]
    · intro s hs j hj
      rcases List.mem_cons.mp hs with rfl | hs'
      · have hij : i = j := Option.some.inj (hi.symm.trans hj)
        exact hij ▸ le_trans (le_max_right acc i) hle
      · exact hbound s hs' j hj
    · rcases hattain with heq | ⟨s, hs, hsm⟩
      · rcases max_choice acc i with h1 | h1
        · left; rw [heq, h1]
        · right
          exact ⟨r, List.mem_cons_self r rest, by rw [hi, heq, h1]⟩
      · right; exact ⟨s, List.mem_cons_of_mem r hs, hsm⟩

theorem nextId_cons_ok (r : RawRow) (rest : List RawRow)
    (h : ∀ s ∈ r :: rest, (s.id).isSome = true) :
    ∃ m, nextId (r :: rest) = Except.ok (m + 1) ∧
      (∃ s ∈ r :: rest, s.id = some m) ∧
      (∀ s ∈ r :: rest, ∀ i, s.id = some i → i ≤ m) := by
  obtain ⟨i, hi⟩ := Option.isSome_iff_exists.mp (h r (List.mem_cons_self r rest))
  obtain ⟨m, hm, hle, hbound, hattain⟩ :=
    maxIdAux_ok i rest fun s hs => h s (List.mem_cons_of_mem r hs)
  refine ⟨m, ?_, ?_, ?_⟩
  · simp [nextId, hi, hm, Except.map]
  · rcases hattain with rfl | ⟨s, hs, hsm⟩
    · exact ⟨r, List.mem_cons_self r rest, hi⟩
    · exact ⟨s, List.mem_cons_of_mem r hs, hsm⟩
  · intro s hs j hj
    rcases List.mem_cons.mp hs with rfl | hs'
    · rw [hi] at hj
      have : i = j := Option.some.inj hj
      exact this ▸ hle
    · exact hbound s hs' j hj

/-! ### Field-level facts about the merge mutation -/

theorem mergeRow_frame (item : PantryItemCreate) (r : RawRow) :
    (mergeRow item r).id = r.id ∧ (mergeRow item r).name = r.name ∧
    (mergeRow item r).unit = r.unit ∧
    (mergeRow item r).expiry_date = r.expiry_date := by
  simp [mergeRow]

theorem mergeRow_quantity (item : PantryItemCreate) (r : RawRow) :
    (mergeRow item r).quantity = some (r.quantity.getD 0 + item.quantity) := by
  simp [mergeRow]

theorem mergeRow_expiry_dates (item : PantryItemCreate) (r : RawRow) :
    (mergeRow item r).expiry_dates =
      some (pySorted (if item.expiry_date ∈ r.expiry_dates.getD []
        then r.expiry_dates.getD []
        else r.expiry_dates.getD [] ++ [item.expiry_date])) := by
  simp only [mergeRow]

theorem mergeRow_rowKey (item : PantryItemCreate) (r : RawRow) :
    rowKey (mergeRow item r) = rowKey r := by
  unfold rowKey
  rw [(mergeRow_frame item r).2.1]

theorem mergeLoop_maps (item : PantryItemCreate) (l : List RawRow) :
    ∀ l' row', mergeLoop item l = some (l', row') →
    l'.map rowKey = l.map rowKey ∧ l'.map RawRow.id = l.map RawRow.id := by
  induction l with
  | nil => intro l' row' h; simp [mergeLoop] at h
  | cons r rest ih =>
    intro l' row' h
    simp only [mergeLoop] at h
    by_cases hc : (rowKey r == normName item.name) = true
    · rw [if_pos hc] at h
      have h' := Option.some.inj h
      rw [Prod.mk.injEq] at h'
      obtain ⟨h1, h2⟩ := h'
      subst h1
      simp [List.map_cons, mergeRow_rowKey, (mergeRow_frame item r).1]
    · rw [if_neg hc] at h
      cases hrec : mergeLoop item rest with
      | none => rw [hrec] at h; simp at h
      | some p =>
        obtain ⟨rest', row''⟩ := p
        rw [hrec] at h
        simp only at h
        have h' := Option.some.inj h
        rw [Prod.mk.injEq] at h'
        obtain ⟨h1, h2⟩ := h'
        subst h1
        have := ih rest' row'' hrec
        simp [List.map_cons, this.1, this.2]

theorem mergeLoop_none_forall (item : PantryItemCreate) (l : List RawRow)
    (h : mergeLoop item l = none) : ∀ r ∈ l, rowKey r ≠ normName item.name := by
  induction l with
  | nil => intro r hr; simp at hr
  | cons r rest ih =>
    intro s hs
    simp only [mergeLoop] at h
    by_cases hc : (rowKey r == normName item.name) = true
    · rw [if_pos hc] at h; simp at h
    · rw [if_neg hc] at h
      rcases List.mem_cons.mp hs with rfl | hs'
      · simpa using hc
      · cases hrec : mergeLoop item rest with
        | some p => rw [hrec] at h; simp at h
        | none => exact ih hrec s hs'

/-! ### Unfolding the endpoints -/

theorem postPantry_merge_case {item : PantryItemCreate} {db items' : List RawRow}
    {merged : RawRow}
    (h : mergeLoop item (db.map normalizeRow) = some (items', merged)) :
    postPantry item db = (items', pantryResponse merged) := by
  unfold postPantry
  simp only [h]

/-- The item that the create path of `post_pantry` builds. -/
def freshItem (item : PantryItemCreate) (newId : Int) : PantryItem :=
  { id := newId, name := pyStrip item.name, quantity := item.quantity,
    unit := item.unit, expiry_dates := [item.expiry_date] }

theorem postPantry_create_case {item : PantryItemCreate} {db : List RawRow}
    (hmerge : mergeLoop item (db.map normalizeRow) = none) {newId : Int}
    (hid : nextId (db.map normalizeRow) = Except.ok newId) :
    postPantry item db =
      (db.map normalizeRow ++ [rowOfItem (freshItem item newId)],
       Except.ok (freshItem item newId)) := by
  unfold postPantry
  simp only [hmerge, hid]
  rfl

theorem postPantry_create_err {item : PantryItemCreate} {db : List RawRow}
    (hmerge : mergeLoop item (db.map normalizeRow) = none) {e : PyErr}
    (herr : nextId (db.map normalizeRow) = Except.error e) :
    postPantry item db = (db, Except.error e) := by
  unfold postPantry
  simp only [hmerge, herr]

theorem putPantry_found {itemId : Int} {body : PantryItemUpdate}
    {db items' : List RawRow} {row' : RawRow}
    (h : putLoop itemId body (db.map normalizeRow) = some (items', row')) :
    putPantry itemId body db = (items', pantryResponse row') := by
  unfold putPantry
  simp only [h]

theorem putPantry_not_found {itemId : Int} {body : PantryItemUpdate}
    {db : List RawRow}
    (h : putLoop itemId body (db.map normalizeRow) = none) :
    putPantry itemId body db = (db, Except.error PyErr.notFound) := by
  unfold putPantry
  simp only [h]

/-! ### Keys and ids through normalization -/

theorem map_comp_normalize {β : Type} (f : RawRow → β)
    (hf : ∀ r, f (normalizeRow r) = f r) (db : List RawRow) :
    (db.map normalizeRow).map f = db.map f := by
  induction db with
  | nil => rfl
  | cons a l ih => simp only [List.map_cons, hf, ih]

theorem rowKey_rowOfItem (it : PantryItem) :
    rowKey (rowOfItem it) = normName it.name := by
  simp [rowKey, rowOfItem]

theorem nameUnique_of_keys_nodup {db : List RawRow}
    (h : (db.map rowKey).Nodup) : NameUnique db := by
  intro r hr s hs hid hkey
  exact hid (List.inj_on_of_nodup_map h hr hs hkey ▸ rfl)

theorem post_keys_nodup {item : PantryItemCreate} {db : List RawRow}
    (h : (db.map rowKey).Nodup) :
    ((postPantry item db).1.map rowKey).Nodup := by
  cases hm : mergeLoop item (db.map normalizeRow) with
  | some p =>
    obtain ⟨items', merged⟩ := p
    rw [postPantry_merge_case hm]
    have hmaps := (mergeLoop_maps item _ items' merged hm).1
    show (items'.map rowKey).Nodup
    rw [hmaps, map_comp_normalize rowKey normalizeRow_rowKey]
    exact h
  | none =>
    cases hid : nextId (db.map normalizeRow) with
    | error e => rw [postPantry_create_err hm hid]; exact h
    | ok newId =>
      rw [postPantry_create_case hm hid]
      show (((db.map normalizeRow) ++ [rowOfItem (freshItem item newId)]).map rowKey).Nodup
      rw [List.map_append, map_comp_normalize rowKey normalizeRow_rowKey]
      have hfresh : ∀ r ∈ db.map normalizeRow, rowKey r ≠ normName item.name :=
        mergeLoop_none_forall item _ hm
      have hfresh' : normName item.name ∉ db.map rowKey := by
        intro hmem
        obtain ⟨r, hr, hkey⟩ := List.mem_map.mp hmem
        exact hfresh (normalizeRow r) (List.mem_map_of_mem normalizeRow hr)
          (by rw [normalizeRow_rowKey, hkey])
      have hkeynew : rowKey (rowOfItem (freshItem item newId)) =
          normName item.name := by
        rw [rowKey_rowOfItem]
        exact normName_pyStrip item.name
      simp only [List.map_cons, List.map_nil, hkeynew]
      rw [List.nodup_append]
      refine ⟨h, List.nodup_singleton _, ?_⟩
      intro a ha hb
      rw [List.mem_singleton.mp hb] at ha
      exact hfresh' ha

theorem postReachable_keys_nodup {db : List RawRow} (h : PostReachable db) :
    (db.map rowKey).Nodup := by
  induction h with
  | empty => simp
  | post item _ ih => exact post_keys_nodup ih

/-! ### Freshly created ids -/

theorem nextId_fresh (l : List RawRow)
    (h : ∀ s ∈ l, ∃ i, s.id = some i ∧ 0 < i) :
    ∃ n, nextId l = Except.ok n ∧ 0 < n ∧ ∀ s ∈ l, s.id ≠ some n := by
  cases l with
  | nil => exact ⟨1, rfl, one_pos, by simp⟩
  | cons r rest =>
    have hsome : ∀ s ∈ r :: rest, (s.id).isSome = true := by
      intro s hs
      obtain ⟨i, hi, _⟩ := h s hs
      simp [hi]
    obtain ⟨m, hok, hatt, hbound⟩ := nextId_cons_ok r rest hsome
    refine ⟨m + 1, hok, ?_, ?_⟩
    · obtain ⟨s, hs, hsm⟩ := hatt
      obtain ⟨i, hi, hip⟩ := h s hs
      have him : i = m := Option.some.inj (hi.symm.trans hsm)
      omega
    · intro s hs hsid
      have := hbound s hs (m + 1) hsid
      omega

theorem rowKey_fresh (item : PantryItemCreate) (newId : Int) :
    rowKey (rowOfItem (freshItem item newId)) = normName item.name := by
  rw [rowKey_rowOfItem]
  exact normName_pyStrip item.name

theorem postMany_cons (q : PantryItemCreate) (reqs : List PantryItemCreate)
    (db : List RawRow) :
    postMany (q :: reqs) db = postMany reqs (postPantry q db).1 := rfl

theorem postMany_fresh (reqs : List PantryItemCreate) :
    ∀ db : List RawRow,
    (∀ s ∈ db, ∃ i, s.id = some i ∧ 0 < i) →
    ((db.map RawRow.id).Nodup) →
    ((reqs.map fun q => normName q.name).Nodup) →
    (∀ q ∈ reqs, ∀ s ∈ db, rowKey s ≠ normName q.name) →
    (postMany reqs db).length = db.length + reqs.length ∧
    (∀ s ∈ postMany reqs db, ∃ i, s.id = some i ∧ 0 < i) ∧
    ((postMany reqs db).map RawRow.id).Nodup := by
  induction reqs with
  | nil =>
    intro db h1 h2 _ _
    exact ⟨by simp [postMany], h1, h2⟩
  | cons q rest ih =>
    intro db hids hnodup hkeys hfresh
    have hfreshq : ∀ s ∈ db.map normalizeRow, rowKey s ≠ normName q.name := by
      intro s hs
      obtain ⟨r, hr, rfl⟩ := List.mem_map.mp hs
      rw [normalizeRow_rowKey]
      exact hfresh q (List.mem_cons_self q rest) r hr
    have hm : mergeLoop q (db.map normalizeRow) = none := mergeLoop_eq_none q _ hfreshq
    have hidsn : ∀ s ∈ db.map normalizeRow, ∃ i, s.id = some i ∧ 0 < i := by
      intro s hs
      obtain ⟨r, hr, rfl⟩ := List.mem_map.mp hs
      rw [normalizeRow_id]
      exact hids r hr
    obtain ⟨newId, hnid, hpos, hnot⟩ := nextId_fresh (db.map normalizeRow) hidsn
    have hstep : (postPantry q db).1 =
        db.map normalizeRow ++ [rowOfItem (freshItem q newId)] := by
      rw [postPantry_create_case hm hnid]
    have hids' : ∀ s ∈ (postPantry q db).1, ∃ i, s.id = some i ∧ 0 < i := by
      rw [hstep]
      intro s hs
      rcases List.mem_append.mp hs with hs' | hs'
      · exact hidsn s hs'
      · rw [List.mem_singleton.mp hs']
        exact ⟨newId, rfl, hpos⟩
    have hnodup' : (((postPantry q db).1).map RawRow.id).Nodup := by
      rw [hstep, List.map_append, map_comp_normalize RawRow.id normalizeRow_id]
      have hnotdb : some newId ∉ db.map RawRow.id := by
        intro hmem
        obtain ⟨s, hs, hsid⟩ := List.mem_map.mp hmem
        exact hnot (normalizeRow s) (List.mem_map_of_mem normalizeRow hs)
          (by rw [normalizeRow_id, hsid])
      rw [List.nodup_append]
      refine ⟨hnodup, List.nodup_singleton _, ?_⟩
      intro a ha hb
      rw [show (List.map RawRow.id [rowOfItem (freshItem q newId)]) =
        [some newId] from rfl] at hb
      rw [List.mem_singleton.mp hb] at ha
      exact hnotdb ha
    have hkeys' : ((rest.map fun q => normName q.name)).Nodup :=
      (List.nodup_cons.mp hkeys).2
    have hheadkey : normName q.name ∉ rest.map fun q => normName q.name :=
      (List.nodup_cons.mp hkeys).1
    have hfresh' : ∀ q' ∈ rest, ∀ s ∈ (postPantry q db).1,
        rowKey s ≠ normName q'.name := by
      rw [hstep]
      intro q' hq' s hs
      rcases List.mem_append.mp hs with hs' | hs'
      · obtain ⟨r, hr, rfl⟩ := List.mem_map.mp hs'
        rw [normalizeRow_rowKey]
        exact hfresh q' (List.mem_cons_of_mem q hq') r hr
      · rw [List.mem_singleton.mp hs', rowKey_fresh]
        intro heq
        exact hheadkey (heq ▸ List.mem_map_of_mem (fun q => normName q.name) hq')
    obtain ⟨hlen, hposall, hnodupall⟩ :=
      ih (postPantry q db).1 hids' hnodup' hkeys' hfresh'
    have hlen' : ((postPantry q db).1).length = db.length + 1 := by
      rw [hstep, List.length_append, List.length_map]
      rfl
    refine ⟨?_, ?_, ?_⟩
    · rw [postMany_cons, hlen, hlen']
      simp [List.length_cons]
      omega
    · rw [postMany_cons]
      exact hposall
    · rw [postMany_cons]
      exact hnodupall

/-! ### Claims -/

/-- C9: normalization is idempotent — for every raw record `r`,
`_normalize_row(_normalize_row(r))` equals `_normalize_row(r)`. -/
theorem claim9_normalize_idempotent (r : RawRow) :
    normalizeRow (normalizeRow r) = normalizeRow r := by
  cases h1 : r.expiry_dates <;> cases h2 : r.expiry_date <;>
    simp [normalizeRow, h1, h2]

/-- C3 counterexample: on unparseable storage `_load_db` does not return
the empty sequence — the `json.load` decode error propagates to the
caller, because `_load_db` catches nothing. -/
theorem claim3_cex_load_raises :
    loadDb Storage.unparseable = Except.error PyErr.jsonDecodeError := rfl

/-- C3 (amended): a missing file and parseable-but-non-list content load as
the empty sequence, a parsed list is returned as stored, and unparseable
content raises a JSON decode error to the caller. -/
theorem claim3_amended_load :
    loadDb Storage.missing = Except.ok [] ∧
    loadDb Storage.parsedOther = Except.ok [] ∧
    (∀ rows, loadDb (Storage.parsedList rows) = Except.ok rows) ∧
    loadDb Storage.unparseable = Except.error PyErr.jsonDecodeError :=
  ⟨rfl, rfl, fun _ => rfl, rfl⟩

/-- C1 counterexample: a record that already carries an unsorted,
duplicated `expiry_dates` list passes through `_normalize_row` verbatim;
the output list is neither sorted nor duplicate-free. -/
theorem claim1_cex_not_sorted_dedup :
    (normalizeRow
        { expiry_dates := some ["2025-02-02", "2025-01-01", "2025-01-01"] }).expiry_dates =
      some ["2025-02-02", "2025-01-01", "2025-01-01"] ∧
    ¬ (List.Sorted pyLeProp ["2025-02-02", "2025-01-01", "2025-01-01"] ∧
       List.Nodup ["2025-02-02", "2025-01-01", "2025-01-01"]) :=
  ⟨rfl, by decide⟩

/-- C1 (amended): the normalizer guarantees only the presence of
`expiry_dates`: a record that already has the field keeps its value
verbatim — unsorted or duplicated contents included — and only when the
field is absent is a (trivially sorted, duplicate-free) list synthesized,
from the legacy `expiry_date` or as the empty default. -/
theorem claim1_amended_normalize_presence (r : RawRow) :
    ((normalizeRow r).expiry_dates).isSome = true ∧
    (∀ l, r.expiry_dates = some l → (normalizeRow r).expiry_dates = some l) ∧
    (r.expiry_dates = none →
      ∃ l, (normalizeRow r).expiry_dates = some l ∧
        List.Sorted pyLeProp l ∧ l.Nodup) := by
  refine ⟨?_, ?_, ?_⟩
  · rw [normalizeRow_expiry_dates]
    rfl
  · intro l hl
    rw [normalizeRow_expiry_dates, hl]
    rfl
  · intro hnone
    rw [normalizeRow_expiry_dates, hnone]
    cases h2 : r.expiry_date with
    | none => exact ⟨[], rfl, List.sorted_nil, List.nodup_nil⟩
    | some d =>
      exact ⟨[d], rfl, List.sorted_singleton d, List.nodup_singleton d⟩

/-- Witness for the amended C1 at a concrete legacy record. -/
theorem claim1_amended_witness :
    ∃ l, (normalizeRow { expiry_date := some "2025-04-01" }).expiry_dates =
      some l ∧ List.Sorted pyLeProp l ∧ l.Nodup :=
  (claim1_amended_normalize_presence { expiry_date := some "2025-04-01" }).2.2 rfl

/-- C10: `_normalize_row` touches no existing key — `id`, `name`,
`quantity`, `unit` and the legacy `expiry_date` pass through unchanged, an
existing `expiry_dates` value is kept verbatim, the field being synthesized
only when absent; and (second conjunct) an update that saves the collection
writes every row's legacy `expiry_date` value back to storage unchanged. -/
theorem claim10_normalize_frame :
    (∀ r : RawRow,
      (normalizeRow r).id = r.id ∧ (normalizeRow r).name = r.name ∧
      (normalizeRow r).quantity = r.quantity ∧
      (normalizeRow r).unit = r.unit ∧
      (normalizeRow r).expiry_date = r.expiry_date ∧
      (normalizeRow r).expiry_dates =
        some (r.expiry_dates.getD
          (match r.expiry_date with | some d => [d] | none => []))) ∧
    (∀ (itemId : Int) (body : PantryItemUpdate) (db : List RawRow),
      ((putPantry itemId body db).1).map RawRow.expiry_date =
        db.map RawRow.expiry_date) := by
  constructor
  · intro r
    obtain ⟨h1, h2, h3, h4, h5⟩ := normalizeRow_frame r
    exact ⟨h1, h2, h3, h4, h5, normalizeRow_expiry_dates r⟩
  · intro itemId body db
    cases hp : putLoop itemId body (db.map normalizeRow) with
    | none => rw [putPantry_not_found hp]
    | some p =>
      obtain ⟨items', row'⟩ := p
      rw [putPantry_found hp]
      show items'.map RawRow.expiry_date = db.map RawRow.expiry_date
      rw [putLoop_expiry_date_map itemId body _ items' row' hp]
      exact map_comp_normalize RawRow.expiry_date
        (fun r => (normalizeRow_frame r).2.2.2.2) db

/-- C7: update-by-id on an id that no stored row carries answers 404 and
leaves the stored collection untouched — the 404 is raised before any
save. -/
theorem claim7_put_missing_id (itemId : Int) (body : PantryItemUpdate)
    (db : List RawRow) (h : ∀ r ∈ db, r.id ≠ some itemId) :
    putPantry itemId body db = (db, Except.error PyErr.notFound) := by
  apply putPantry_not_found
  apply putLoop_eq_none
  intro r hr
  obtain ⟨s, hs, rfl⟩ := List.mem_map.mp hr
  rw [normalizeRow_id]
  exact h s hs

/-- Witness for C7: updating id 999 in a one-row collection. -/
theorem claim7_witness :
    putPantry 999 {} [{ id := some 1 }] =
      ([{ id := some 1 }], Except.error PyErr.notFound) :=
  claim7_put_missing_id 999 {} [{ id := some 1 }] (by decide)

/-- C8 counterexample: a creation body whose `name` is the empty string
passes pydantic validation — `name: str` carries no non-empty constraint —
and flows into the create-or-merge logic, which creates an item named
`""`.  The claim that it is rejected before the business logic fails. -/
theorem claim8_cex_empty_name_accepted :
    validateCreate
        { name := some (JVal.s ""), quantity := some (JVal.i 5),
          unit := some (JVal.s "u"), expiry_date := some (JVal.s "2025-01-01") } =
      Except.ok
        { name := "", quantity := 5, unit := "u", expiry_date := "2025-01-01" } ∧
    (postPantry
        { name := "", quantity := 5, unit := "u", expiry_date := "2025-01-01" }
        []).2 =
      Except.ok
        { id := 1, name := "", quantity := 5, unit := "u",
          expiry_dates := ["2025-01-01"] } :=
  ⟨rfl, rfl⟩

/-- C8 (amended): a creation request missing `name`, or carrying a
non-string `name`, is rejected by validation before the business logic; an
empty-string `name` however passes validation and reaches create-or-merge,
which creates an item with empty name. -/
theorem claim8_amended_validation (b : CreateBody) :
    (b.name = none → validateCreate b = Except.error PyErr.validationError) ∧
    (∀ n : Int, b.name = some (JVal.i n) →
      validateCreate b = Except.error PyErr.validationError) ∧
    validateCreate
        { name := some (JVal.s ""), quantity := some (JVal.i 5),
          unit := some (JVal.s "u"), expiry_date := some (JVal.s "2025-01-01") } =
      Except.ok
        { name := "", quantity := 5, unit := "u",
          expiry_date := "2025-01-01" } := by
  obtain ⟨bn, bq, bu, bd⟩ := b
  refine ⟨?_, ?_, rfl⟩
  · intro h
    simp only at h
    subst h
    rfl
  · intro n h
    simp only at h
    subst h
    rfl

/-- Witness for the amended C8: the all-absent body is rejected. -/
theorem claim8_amended_witness :
    validateCreate {} = Except.error PyErr.validationError :=
  (claim8_amended_validation {}).1 rfl

/-- C2 counterexample: from the empty collection, create `Milk` (id 1) and
`Bread` (id 2), then update id 2 renaming it to `Milk`.  The resulting
collection is reachable by one create-or-merge/update-by-id sequence yet
holds two items with distinct ids whose names are equal under trimmed,
case-insensitive comparison — `put_pantry` never re-checks name
uniqueness. -/
theorem claim2_cex_rename_collision :
    Reachable (putPantry 2 { name := some "Milk" }
      (postPantry
        { name := "Bread", quantity := 1, unit := "u", expiry_date := "2025-01-01" }
        (postPantry
          { name := "Milk", quantity := 1, unit := "u", expiry_date := "2025-01-01" }
          []).1).1).1 ∧
    ¬ NameUnique (putPantry 2 { name := some "Milk" }
      (postPantry
        { name := "Bread", quantity := 1, unit := "u", expiry_date := "2025-01-01" }
        (postPantry
          { name := "Milk", quantity := 1, unit := "u", expiry_date := "2025-01-01" }
          []).1).1).1 := by
  constructor
  · exact Reachable.put 2 _ (Reachable.post _ (Reachable.post _ Reachable.empty))
  · decide

/-- C2 (amended): the invariant does hold for every collection reachable by
create-or-merge operations alone; an update-by-id that sets `name` can
break it. -/
theorem claim2_amended_posts_preserve (db : List RawRow)
    (h : PostReachable db) : NameUnique db :=
  nameUnique_of_keys_nodup (postReachable_keys_nodup h)

/-- Witness for the amended C2 at a concrete one-create collection. -/
theorem claim2_amended_witness :
    NameUnique (postPantry
      { name := "Milk", quantity := 1, unit := "u", expiry_date := "2025-01-01" }
      []).1 :=
  claim2_amended_posts_preserve _ (PostReachable.post _ PostReachable.empty)

/-- C4: create-or-merge on a normalized collection whose first
name-matching row (under trimmed, case-insensitive comparison) is `r`:
the quantity grows by the input quantity, the input expiry date is
appended exactly when absent, the list is re-sorted ascending, name and
unit are untouched, and the merged item is returned; a date submitted
twice ends up present exactly once. -/
theorem claim4_post_merges (item : PantryItemCreate) (pre post : List RawRow)
    (r : RawRow) (i0 : Int) (n0 : String) (q0 : Int) (u0 : String)
    (ed0 : List String)
    (hnorm : ∀ s ∈ pre ++ r :: post, normalizeRow s = s)
    (hpre : ∀ s ∈ pre, rowKey s ≠ normName item.name)
    (hr : rowKey r = normName item.name)
    (hid : r.id = some i0) (hn : r.name = some n0) (hq : r.quantity = some q0)
    (hu : r.unit = some u0) (hed : r.expiry_dates = some ed0) :
    ∃ (r' : RawRow) (l : List String),
      postPantry item (pre ++ r :: post) =
        (pre ++ r' :: post,
         Except.ok
           { id := i0, name := n0, quantity := q0 + item.quantity,
             unit := u0, expiry_dates := l }) ∧
      r'.id = some i0 ∧ r'.name = some n0 ∧ r'.unit = some u0 ∧
      r'.expiry_date = r.expiry_date ∧
      r'.quantity = some (q0 + item.quantity) ∧
      r'.expiry_dates = some l ∧
      List.Sorted pyLeProp l ∧
      item.expiry_date ∈ l ∧
      (item.expiry_date ∈ ed0 → List.Perm l ed0) ∧
      (item.expiry_date ∉ ed0 → List.Perm l (ed0 ++ [item.expiry_date])) ∧
      (ed0.count item.expiry_date ≤ 1 → l.count item.expiry_date = 1) := by
  have hmap : (pre ++ r :: post).map normalizeRow = pre ++ r :: post :=
    map_normalizeRow_fixed hnorm
  have hml : mergeLoop item ((pre ++ r :: post).map normalizeRow) =
      some (pre ++ mergeRow item r :: post, mergeRow item r) := by
    rw [hmap]
    exact mergeLoop_first item pre r post hpre hr
  refine ⟨mergeRow item r,
    pySorted (if item.expiry_date ∈ ed0 then ed0 else ed0 ++ [item.expiry_date]),
    ?_, ?_, ?_, ?_, ?_, ?_, ?_, ?_, ?_, ?_, ?_, ?_⟩
  · rw [postPantry_merge_case hml]
    have hresp : pantryResponse (mergeRow item r) =
        Except.ok
          { id := i0, name := n0, quantity := q0 + item.quantity, unit := u0,
            expiry_dates := pySorted (if item.expiry_date ∈ ed0 then ed0
              else ed0 ++ [item.expiry_date]) } := by
      simp [pantryResponse, pantryItemOfRow, mergeRow, hid, hn, hq, hu, hed]
    rw [hresp]
  · rw [(mergeRow_frame item r).1, hid]
  · rw [(mergeRow_frame item r).2.1, hn]
  · rw [(mergeRow_frame item r).2.2.1, hu]
  · exact (mergeRow_frame item r).2.2.2
  · rw [mergeRow_quantity, hq]
    rfl
  · rw [mergeRow_expiry_dates, hed]
    rfl
  · exact sorted_pySorted _
  · rw [mem_pySorted]
    by_cases hmem : item.expiry_date ∈ ed0
    · rw [if_pos hmem]
      exact hmem
    · rw [if_neg hmem]
      simp
  · intro hmem
    rw [if_pos hmem]
    exact perm_pySorted ed0
  · intro hmem
    rw [if_neg hmem]
    exact perm_pySorted (ed0 ++ [item.expiry_date])
  · intro hcount
    rw [count_pySorted]
    by_cases hmem : item.expiry_date ∈ ed0
    · rw [if_pos hmem]
      have := List.count_pos_iff.mpr hmem
      omega
    · rw [if_neg hmem]
      have h0 : ed0.count item.expiry_date = 0 := List.count_eq_zero.mpr hmem
      simp [h0]

/-- Witness for C4: merging a second `eggs` batch into a one-item
collection holding `Eggs`. -/
theorem claim4_witness :
    ∃ (r' : RawRow) (l : List String),
      postPantry
          { name := "eggs", quantity := 6, unit := "count",
            expiry_date := "2025-05-10" }
          ([] ++
            { id := some 1, name := some "Eggs", quantity := some 12,
              unit := some "count",
              expiry_dates := some ["2025-05-01"] } :: ([] : List RawRow)) =
        ([] ++ r' :: ([] : List RawRow),
         Except.ok
           { id := 1, name := "Eggs", quantity := 12 + 6,
             unit := "count", expiry_dates := l }) ∧
      r'.id = some 1 ∧ r'.name = some "Eggs" ∧ r'.unit = some "count" ∧
      r'.expiry_date = RawRow.expiry_date
        { id := some 1, name := some "Eggs", quantity := some 12,
          unit := some "count", expiry_dates := some ["2025-05-01"] } ∧
      r'.quantity = some (12 + 6) ∧
      r'.expiry_dates = some l ∧
      List.Sorted pyLeProp l ∧
      "2025-05-10" ∈ l ∧
      ("2025-05-10" ∈ ["2025-05-01"] → List.Perm l ["2025-05-01"]) ∧
      ("2025-05-10" ∉ ["2025-05-01"] →
        List.Perm l (["2025-05-01"] ++ ["2025-05-10"])) ∧
      (List.count "2025-05-10" ["2025-05-01"] ≤ 1 →
        List.count "2025-05-10" l = 1) :=
  claim4_post_merges
    { name := "eggs", quantity := 6, unit := "count",
      expiry_date := "2025-05-10" }
    [] []
    { id := some 1, name := some "Eggs", quantity := some 12,
      unit := some "count", expiry_dates := some ["2025-05-01"] }
    1 "Eggs" 12 "count" ["2025-05-01"]
    (by decide) (by simp) (by decide) rfl rfl rfl rfl rfl

/-! ### Field-level facts about the update patch -/

theorem applyUpdate_name (body : PantryItemUpdate) (r : RawRow) :
    (applyUpdate body r).name =
      match body.name with
      | some n => some (pyStrip n)
      | none => r.name := by
  cases hn : body.name <;> cases hq : body.quantity <;> cases hu : body.unit <;>
    cases hd : body.expiry_dates <;> simp [applyUpdate, hn, hq, hu, hd]

theorem applyUpdate_quantity (body : PantryItemUpdate) (r : RawRow) :
    (applyUpdate body r).quantity =
      match body.quantity with
      | some q => some q
      | none => r.quantity := by
  cases hn : body.name <;> cases hq : body.quantity <;> cases hu : body.unit <;>
    cases hd : body.expiry_dates <;> simp [applyUpdate, hn, hq, hu, hd]

theorem applyUpdate_unit (body : PantryItemUpdate) (r : RawRow) :
    (applyUpdate body r).unit =
      match body.unit with
      | some u => some u
      | none => r.unit := by
  cases hn : body.name <;> cases hq : body.quantity <;> cases hu : body.unit <;>
    cases hd : body.expiry_dates <;> simp [applyUpdate, hn, hq, hu, hd]

theorem applyUpdate_expiry_dates (body : PantryItemUpdate) (r : RawRow) :
    (applyUpdate body r).expiry_dates =
      match body.expiry_dates with
      | some ds => some (pySorted ds)
      | none => r.expiry_dates := by
  cases hn : body.name <;> cases hq : body.quantity <;> cases hu : body.unit <;>
    cases hd : body.expiry_dates <;> simp [applyUpdate, hn, hq, hu, hd]

/-- C6 counterexample: `put_pantry` does not store a provided `name`
verbatim — it stores `body.name.strip()`.  Updating id 1 with the name
`" Cheese "` stores `"Cheese"`, which differs from the given value, so the
claim that every provided field is overwritten with the given value fails
at this input. -/
theorem claim6_cex_name_stripped :
    ((putPantry 1 { name := some " Cheese " }
        [{ id := some 1, name := some "Eggs", quantity := some 12,
           unit := some "count",
           expiry_dates := some ["2025-05-01"] }]).1.map RawRow.name) =
      [some "Cheese"] ∧
    some "Cheese" ≠ some " Cheese " :=
  ⟨rfl, by decide⟩

/-- C6 (amended): update-by-id on a normalized collection whose row with
the given id is `r` (ids unique up to first match): each provided field
overwrites the stored one with the given value, except that `name` is
stored trimmed and `expiry_dates` is stored sorted ascending with
caller-supplied duplicates preserved (multiplicities unchanged); every
omitted field of `r` and every other row stay untouched, and the updated
item is returned. -/
theorem claim6_put_updates (itemId : Int) (body : PantryItemUpdate)
    (pre post : List RawRow) (r : RawRow) (n0 : String) (q0 : Int)
    (u0 : String)
    (hnorm : ∀ s ∈ pre ++ r :: post, normalizeRow s = s)
    (hpre : ∀ s ∈ pre, s.id ≠ some itemId)
    (hid : r.id = some itemId)
    (hn : r.name = some n0) (hq : r.quantity = some q0)
    (hu : r.unit = some u0) :
    ∃ (r' : RawRow) (it : PantryItem),
      putPantry itemId body (pre ++ r :: post) =
        (pre ++ r' :: post, Except.ok it) ∧
      r'.id = some itemId ∧
      r'.expiry_date = r.expiry_date ∧
      (body.name = none → r'.name = r.name) ∧
      (∀ n, body.name = some n → r'.name = some (pyStrip n)) ∧
      (body.quantity = none → r'.quantity = r.quantity) ∧
      (∀ q, body.quantity = some q → r'.quantity = some q) ∧
      (body.unit = none → r'.unit = r.unit) ∧
      (∀ u, body.unit = some u → r'.unit = some u) ∧
      (body.expiry_dates = none → r'.expiry_dates = r.expiry_dates) ∧
      (∀ ds, body.expiry_dates = some ds →
        ∃ l, r'.expiry_dates = some l ∧ List.Sorted pyLeProp l ∧
          ∀ a, l.count a = ds.count a) ∧
      some it.id = r'.id ∧ some it.name = r'.name ∧
      some it.quantity = r'.quantity ∧ some it.unit = r'.unit ∧
      it.expiry_dates = (r'.expiry_dates).getD [] := by
  have hmap : (pre ++ r :: post).map normalizeRow = pre ++ r :: post :=
    map_normalizeRow_fixed hnorm
  have hpl : putLoop itemId body ((pre ++ r :: post).map normalizeRow) =
      some (pre ++ applyUpdate body r :: post, applyUpdate body r) := by
    rw [hmap]
    exact putLoop_first itemId body pre r post hpre hid
  have hid' : (applyUpdate body r).id = some itemId := by
    rw [applyUpdate_id, hid]
  obtain ⟨n', hn'⟩ : ∃ n', (applyUpdate body r).name = some n' := by
    rw [applyUpdate_name]
    cases body.name with
    | none => exact ⟨n0, hn⟩
    | some n => exact ⟨pyStrip n, rfl⟩
  obtain ⟨q', hq'⟩ : ∃ q', (applyUpdate body r).quantity = some q' := by
    rw [applyUpdate_quantity]
    cases body.quantity with
    | none => exact ⟨q0, hq⟩
    | some q => exact ⟨q, rfl⟩
  obtain ⟨u', hu'⟩ : ∃ u', (applyUpdate body r).unit = some u' := by
    rw [applyUpdate_unit]
    cases body.unit with
    | none => exact ⟨u0, hu⟩
    | some u => exact ⟨u, rfl⟩
  refine ⟨applyUpdate body r,
    { id := itemId, name := n', quantity := q', unit := u',
      expiry_dates := ((applyUpdate body r).expiry_dates).getD [] },
    ?_, hid', applyUpdate_expiry_date body r, ?_, ?_, ?_, ?_, ?_, ?_, ?_, ?_,
    hid'.symm, hn'.symm, hq'.symm, hu'.symm, rfl⟩
  · rw [putPantry_found hpl]
    have hresp : pantryResponse (applyUpdate body r) =
        Except.ok
          { id := itemId, name := n', quantity := q', unit := u',
            expiry_dates := ((applyUpdate body r).expiry_dates).getD [] } := by
      simp [pantryResponse, pantryItemOfRow, hid', hn', hq', hu']
    rw [hresp]
  · intro h
    rw [applyUpdate_name, h]
  · intro n h
    rw [applyUpdate_name, h]
  · intro h
    rw [applyUpdate_quantity, h]
  · intro q h
    rw [applyUpdate_quantity, h]
  · intro h
    rw [applyUpdate_unit, h]
  · intro u h
    rw [applyUpdate_unit, h]
  · intro h
    rw [applyUpdate_expiry_dates, h]
  · intro ds h
    refine ⟨pySorted ds, ?_, sorted_pySorted ds, count_pySorted ds⟩
    rw [applyUpdate_expiry_dates, h]

/-- Witness for C6: setting quantity to 0 on a one-item collection. -/
theorem claim6_witness :
    ∃ (r' : RawRow) (it : PantryItem),
      putPantry 1 { quantity := some 0 }
          ([] ++
            { id := some 1, name := some "Eggs", quantity := some 12,
              unit := some "count",
              expiry_dates := some ["2025-05-01"] } :: ([] : List RawRow)) =
        ([] ++ r' :: ([] : List RawRow), Except.ok it) ∧
      r'.id = some 1 ∧
      r'.expiry_date = RawRow.expiry_date
        { id := some 1, name := some "Eggs", quantity := some 12,
          unit := some "count", expiry_dates := some ["2025-05-01"] } ∧
      (PantryItemUpdate.name { quantity := some 0 } = none →
        r'.name = some "Eggs") ∧
      (∀ n, PantryItemUpdate.name { quantity := some 0 } = some n →
        r'.name = some (pyStrip n)) ∧
      (PantryItemUpdate.quantity { quantity := some 0 } = none →
        r'.quantity = some 12) ∧
      (∀ q, PantryItemUpdate.quantity { quantity := some 0 } = some q →
        r'.quantity = some q) ∧
      (PantryItemUpdate.unit { quantity := some 0 } = none →
        r'.unit = some "count") ∧
      (∀ u, PantryItemUpdate.unit { quantity := some 0 } = some u →
        r'.unit = some u) ∧
      (PantryItemUpdate.expiry_dates { quantity := some 0 } = none →
        r'.expiry_dates = some ["2025-05-01"]) ∧
      (∀ ds, PantryItemUpdate.expiry_dates { quantity := some 0 } = some ds →
        ∃ l, r'.expiry_dates = some l ∧ List.Sorted pyLeProp l ∧
          ∀ a, l.count a = ds.count a) ∧
      some it.id = r'.id ∧ some it.name = r'.name ∧
      some it.quantity = r'.quantity ∧ some it.unit = r'.unit ∧
      it.expiry_dates = (r'.expiry_dates).getD [] :=
  claim6_put_updates 1 { quantity := some 0 } [] []
    { id := some 1, name := some "Eggs", quantity := some 12,
      unit := some "count", expiry_dates := some ["2025-05-01"] }
    "Eggs" 12 "count" (by decide) (by simp) rfl rfl rfl rfl

/-- C5: create-or-merge on a normalized collection without a name match
appends a fresh item — id `max(existing ids) + 1` (1 on the empty
collection; the conjuncts say `id - 1` is an id in the collection and an
upper bound of all ids), name trimmed, quantity/unit as given,
`expiry_dates = [expiry_date]` — and returns it; consequently any sequence
of creates with pairwise-distinct normalized names, run from the empty
collection, yields as many items as requests with pairwise-distinct,
strictly positive ids. -/
theorem claim5_post_creates :
    (∀ (item : PantryItemCreate) (db : List RawRow),
      (∀ s ∈ db, normalizeRow s = s) →
      (∀ s ∈ db, rowKey s ≠ normName item.name) →
      (∀ s ∈ db, (s.id).isSome = true) →
      ∃ it : PantryItem,
        postPantry item db = (db ++ [rowOfItem it], Except.ok it) ∧
        it.name = pyStrip item.name ∧ it.quantity = item.quantity ∧
        it.unit = item.unit ∧ it.expiry_dates = [item.expiry_date] ∧
        (db = [] → it.id = 1) ∧
        (db ≠ [] →
          (∃ s ∈ db, s.id = some (it.id - 1)) ∧
          ∀ s ∈ db, ∀ i, s.id = some i → i ≤ it.id - 1)) ∧
    (∀ reqs : List PantryItemCreate,
      ((reqs.map fun q => normName q.name)).Nodup →
      (postMany reqs []).length = reqs.length ∧
      (∀ s ∈ postMany reqs [], ∃ i, s.id = some i ∧ 0 < i) ∧
      ((postMany reqs []).map RawRow.id).Nodup) := by
  constructor
  · intro item db hnorm hfresh hids
    have hmap : db.map normalizeRow = db := map_normalizeRow_fixed hnorm
    have hm : mergeLoop item (db.map normalizeRow) = none := by
      rw [hmap]
      exact mergeLoop_eq_none item db hfresh
    cases db with
    | nil =>
      refine ⟨freshItem item 1, ?_, rfl, rfl, rfl, rfl, fun _ => rfl,
        fun hne => absurd rfl hne⟩
      have h1 : nextId (List.map normalizeRow []) = Except.ok 1 := rfl
      rw [postPantry_create_case hm h1]
      rfl
    | cons r rest =>
      obtain ⟨m, hok, hatt, hbound⟩ := nextId_cons_ok r rest hids
      have hok' : nextId ((r :: rest).map normalizeRow) = Except.ok (m + 1) := by
        rw [hmap]
        exact hok
      have hidf : (freshItem item (m + 1)).id = m + 1 := rfl
      refine ⟨freshItem item (m + 1), ?_, rfl, rfl, rfl, rfl, ?_, ?_⟩
      · rw [postPantry_create_case hm hok', hmap]
      · intro h
        simp at h
      · intro _
        constructor
        · obtain ⟨s, hs, hsm⟩ := hatt
          refine ⟨s, hs, ?_⟩
          rw [hsm, hidf]
          congr 1
          omega
        · intro s hs i hi
          have := hbound s hs i hi
          rw [hidf]
          omega
  · intro reqs hkeys
    obtain ⟨hlen, hpos, hnodup⟩ :=
      postMany_fresh reqs [] (by simp) (by simp) hkeys (by simp)
    exact ⟨by simpa using hlen, hpos, hnodup⟩

/-- Witness for C5: creating `" Eggs "` in the empty collection. -/
theorem claim5_witness :
    ∃ it : PantryItem,
      postPantry
          { name := " Eggs ", quantity := 12, unit := "count",
            expiry_date := "2025-05-01" } [] =
        (([] : List RawRow) ++ [rowOfItem it], Except.ok it) ∧
      it.name = pyStrip " Eggs " ∧ it.quantity = 12 ∧ it.unit = "count" ∧
      it.expiry_dates = ["2025-05-01"] ∧
      (([] : List RawRow) = [] → it.id = 1) ∧
      (([] : List RawRow) ≠ [] →
        (∃ s ∈ ([] : List RawRow), s.id = some (it.id - 1)) ∧
        ∀ s ∈ ([] : List RawRow), ∀ i, s.id = some i → i ≤ it.id - 1) :=
  claim5_post_creates.1
    { name := " Eggs ", quantity := 12, unit := "count",
      expiry_date := "2025-05-01" }
    [] (by simp) (by simp) (by simp)
